import Mathlib

/-
Verification of the Spotless-Film dust-removal pipeline.

Shallow embedding of the dust-mask inference and mask-editing pipeline:
  - `src/src/image_processing.py` (binarization, dilation, blending,
    fast-path prediction, LaMa inpainting wrapper),
  - `src/src/dust_removal_state.py` (dual-resolution mask state, stroke
    tracking, undo history),
  - `src/dust_removal_app.py` (tiled patch inference, the standalone
    app's LaMa wrapper with its classical fallback),
  - `src/src/spotless_film_modern.py` (cursor-anchored wheel zoom and the
    single-view display transform).

Machine floats are modelled as exact rationals; numpy uint8 rasters as
`Nat`-valued pixel functions; fallible external calls as `Except`.
External-library primitives whose internals are not part of this
repository (the segmentation network, cv2.inpaint, the bilinear resizes)
are taken as function parameters, so every theorem quantifies over them;
external primitives with simple documented semantics (nearest-neighbor
resize, the OpenCV 5x5 elliptical structuring element, numpy reflect
padding) are modelled directly.
-/

/-- A 2D raster with `Nat`-valued pixels (numpy uint8 / PIL mode L image,
or one channel of an RGB image). `px` takes (row, column); values outside
`[0, h) x [0, w)` are junk and never read by the embedded operations. -/
structure Img where
  w : Nat
  h : Nat
  px : Nat → Nat → Nat

/-- A float32 probability map (`prediction` in `create_binary_mask`),
with exact rationals in place of machine floats. -/
structure ProbMap where
  w : Nat
  h : Nat
  px : Nat → Nat → ℚ

/-- Nearest-neighbor resampling to a `targetW x targetH` raster
(`Image.Resampling.NEAREST` in PIL): each output pixel samples the source
pixel its coordinate scales back to. -/
def resizeNearest (m : Img) (targetW targetH : Nat) : Img :=
  { w := targetW, h := targetH,
    px := fun y x => m.px (y * m.h / targetH) (x * m.w / targetW) }

/-- `ImageProcessingService.create_binary_mask` (image_processing.py,
lines 219-268): threshold the prediction with a strict comparison,
`(prediction > threshold).astype(np.uint8) * 255`, then resize to
`original_size` with nearest-neighbor resampling only when the sizes
differ.  `originalSize` is `(width, height)` as in PIL. -/
def createBinaryMask (prediction : ProbMap) (threshold : ℚ)
    (originalSize : Nat × Nat) : Img :=
  let mask : Img :=
    { w := prediction.w, h := prediction.h,
      px := fun y x => if threshold < prediction.px y x then 255 else 0 }
  if (mask.w, mask.h) = originalSize then mask
  else resizeNearest mask originalSize.1 originalSize.2

/-- C1: binarization is strict and monotone in the threshold.  When the
prediction already has the requested size (so the nearest-neighbor branch
is skipped), a pixel of the binary mask is on (255) iff its probability
strictly exceeds the threshold, the output dimensions equal the input
dimensions, and for thresholds t1 < t2 every pixel on at t2 is on at t1. -/
theorem createBinaryMask_strict_and_monotone (p : ProbMap) (t1 t2 : ℚ)
    (h12 : t1 < t2) :
    (∀ t : ℚ, ∀ y x : Nat,
      (createBinaryMask p t (p.w, p.h)).px y x = 255 ↔ t < p.px y x) ∧
    (∀ t : ℚ, (createBinaryMask p t (p.w, p.h)).w = p.w ∧
      (createBinaryMask p t (p.w, p.h)).h = p.h) ∧
    (∀ y x : Nat, (createBinaryMask p t2 (p.w, p.h)).px y x = 255 →
      (createBinaryMask p t1 (p.w, p.h)).px y x = 255) := by
  have hpx : ∀ t : ℚ, ∀ y x : Nat,
      (createBinaryMask p t (p.w, p.h)).px y x = 255 ↔ t < p.px y x := by
    intro t y x
    simp only [createBinaryMask, if_pos rfl]
    by_cases h : t < p.px y x
    · simp [h]
    · simp [h]
  refine ⟨hpx, ?_, ?_⟩
  · intro t
    simp [createBinaryMask]
  · intro y x h2
    exact (hpx t1 y x).mpr (lt_trans h12 ((hpx t2 y x).mp h2))

/-- A concrete probability map used to instantiate the C1 theorem. -/
def probMapEx : ProbMap :=
  { w := 2, h := 2, px := fun _ _ => 2 }

/-- Witness for C1 at a concrete map and thresholds 0 < 1: the mask at
the higher threshold has pixel (0,0) on, hence so does the mask at the
lower threshold. -/
theorem createBinaryMask_strict_and_monotone_witness :
    (createBinaryMask probMapEx 0 (2, 2)).px 0 0 = 255 :=
  (createBinaryMask_strict_and_monotone probMapEx 0 1
    (by norm_num)).2.2 0 0 (by decide)

/-- Clamp a float pixel value to [0, 255] (`np.clip(blended, 0, 255)` in
`blend_images`). -/
def clip255 (q : ℚ) : ℚ := max 0 (min 255 q)

/-- Conversion of a clipped nonnegative float to uint8
(`.astype(np.uint8)`): truncation, i.e. floor on nonnegative values. -/
def toUint8 (q : ℚ) : Nat := (⌊q⌋).toNat

/-- `ImageProcessingService.blend_images` (image_processing.py, lines
286-316), one channel of one pixel: the mask value is normalized to
[0,1] by dividing by 255, then
`blended = orig * (1 - mask) + inpaint * mask`, clipped and cast back to
uint8. -/
def blendChannel (orig inpaint mask : Nat) : Nat :=
  toUint8 (clip255 ((orig : ℚ) * (1 - (mask : ℚ) / 255) +
    (inpaint : ℚ) * ((mask : ℚ) / 255)))

/-- `blend_images` on whole single-channel rasters of equal size (the
resize branches are skipped when the sizes agree; RGB images apply
`blendChannel` to each of the three channels independently). -/
def blendImages (orig inpaint mask : Img) : Img :=
  { w := orig.w, h := orig.h,
    px := fun y x => blendChannel (orig.px y x) (inpaint.px y x) (mask.px y x) }

/-- C4: the blend step computes, per channel,
`output = orig * (1 - mask/255) + inpaint * (mask/255)` (clipped to
[0,255] and truncated to uint8), and wherever the mask value is 0 the
output pixel is numerically identical to the original (for in-range
uint8 originals). -/
theorem blendImages_formula_and_identity_off_mask (orig inpaint mask : Img)
    (y x : Nat) (hm : mask.px y x = 0) (ho : orig.px y x ≤ 255) :
    (∀ o i m : Nat, blendChannel o i m =
      toUint8 (clip255 ((o : ℚ) * (1 - (m : ℚ) / 255) +
        (i : ℚ) * ((m : ℚ) / 255)))) ∧
    (blendImages orig inpaint mask).px y x = orig.px y x := by
  refine ⟨fun _ _ _ => rfl, ?_⟩
  set o := orig.px y x with ho_def
  have hval : ((o : ℚ) * (1 - (0 : ℚ) / 255) + (inpaint.px y x : ℚ) * ((0 : ℚ) / 255)) = (o : ℚ) := by
    ring
  have hclip : clip255 (o : ℚ) = (o : ℚ) := by
    unfold clip255
    rw [min_eq_right (by exact_mod_cast ho), max_eq_right (by positivity)]
  simp only [blendImages, blendChannel, hm, Nat.cast_zero, hval, hclip]
  unfold toUint8
  rw [Int.floor_natCast, Int.toNat_natCast]

/-- Concrete images used to instantiate the C4 theorem. -/
def origEx : Img := { w := 1, h := 1, px := fun _ _ => 200 }

/-- Concrete inpainted image used to instantiate the C4 theorem. -/
def inpaintEx : Img := { w := 1, h := 1, px := fun _ _ => 7 }

/-- Concrete all-zero mask used to instantiate the C4 theorem. -/
def maskZeroEx : Img := { w := 1, h := 1, px := fun _ _ => 0 }

/-- Witness for C4: blending a 200-valued original with a 7-valued
inpainted image under a zero mask returns the original value 200. -/
theorem blendImages_identity_off_mask_witness :
    (blendImages origEx inpaintEx maskZeroEx).px 0 0 = origEx.px 0 0 :=
  (blendImages_formula_and_identity_off_mask origEx inpaintEx maskZeroEx 0 0
    rfl (by decide)).2

/-- A binary mask with `Bool`-valued pixels (a uint8 {0,255} mask viewed
through the on/off distinction that `cv2.dilate` preserves). -/
structure BMask where
  w : Nat
  h : Nat
  px : Nat → Nat → Bool

/-- The structuring element `cv2.getStructuringElement(cv2.MORPH_ELLIPSE,
(5, 5))` used by `ImageProcessingService.dilate_mask` with the default
`kernel_size = 5`, written as (row, column) offsets from the anchor at
the kernel center: OpenCV's 5x5 ellipse is the full 5x3 middle block plus
the two single center pixels of the top and bottom rows. -/
def ellipseKernel5 : List (Int × Int) :=
  [(-2, 0),
   (-1, -2), (-1, -1), (-1, 0), (-1, 1), (-1, 2),
   (0, -2), (0, -1), (0, 0), (0, 1), (0, 2),
   (1, -2), (1, -1), (1, 0), (1, 1), (1, 2),
   (2, 0)]

/-- `cv2.dilate(mask, kernel, iterations=1)` on a binary mask
(image_processing.py, lines 270-284): an output pixel is on iff some
kernel offset lands on an in-bounds on pixel of the source (pixels
outside the raster contribute the neutral value of the max filter). -/
def dilate (kernel : List (Int × Int)) (m : BMask) : BMask :=
  { w := m.w, h := m.h,
    px := fun y x =>
      kernel.any fun d =>
        decide (0 ≤ (y : Int) + d.1) && decide ((y : Int) + d.1 < (m.h : Int)) &&
        decide (0 ≤ (x : Int) + d.2) && decide ((x : Int) + d.2 < (m.w : Int)) &&
        m.px ((y : Int) + d.1).toNat ((x : Int) + d.2).toNat }

/-- A 9x9 mask whose only on pixel is at the center (4,4). -/
def singleDotMask : BMask :=
  { w := 9, h := 9, px := fun y x => y == 4 && x == 4 }

/-- Counterexample to C6: dilation with the default 5x5 elliptical kernel
is not idempotent.  On a 9x9 mask with a single centered on pixel, pixel
(4,0) is off after one dilation but on after two, so
`dilate (dilate mask) ≠ dilate mask`. -/
theorem dilate_not_idempotent_counterexample :
    (dilate ellipseKernel5 singleDotMask).px 4 0 = false ∧
    (dilate ellipseKernel5 (dilate ellipseKernel5 singleDotMask)).px 4 0 = true := by
  decide

/-- Shared helper: any dilation whose kernel contains the anchor offset
(0,0) never turns an in-bounds on pixel off. -/
theorem dilate_extensive_of_anchor (kernel : List (Int × Int))
    (hk : ((0 : Int), (0 : Int)) ∈ kernel) (m : BMask) (y x : Nat)
    (hy : y < m.h) (hx : x < m.w) (hpx : m.px y x = true) :
    (dilate kernel m).px y x = true := by
  simp only [dilate, List.any_eq_true]
  refine ⟨((0 : Int), (0 : Int)), hk, ?_⟩
  simp [hpx, hy, hx]

/-- C6 amended: dilation with the default 5x5 elliptical kernel is
inflationary rather than idempotent — it never removes an on pixel, and a
second application contains the first (it can strictly grow it, as the
counterexample shows). -/
theorem dilate_same_kernel_inflationary (m : BMask) (y x : Nat)
    (hy : y < m.h) (hx : x < m.w) :
    (m.px y x = true → (dilate ellipseKernel5 m).px y x = true) ∧
    ((dilate ellipseKernel5 m).px y x = true →
      (dilate ellipseKernel5 (dilate ellipseKernel5 m)).px y x = true) := by
  have hk : ((0 : Int), (0 : Int)) ∈ ellipseKernel5 := by decide
  exact ⟨dilate_extensive_of_anchor ellipseKernel5 hk m y x hy hx,
    dilate_extensive_of_anchor ellipseKernel5 hk (dilate ellipseKernel5 m) y x hy hx⟩

/-- Witness for the amended C6 at the concrete 9x9 single-dot mask: the
center pixel stays on after one and after two dilations. -/
theorem dilate_same_kernel_inflationary_witness :
    (dilate ellipseKernel5 (dilate ellipseKernel5 singleDotMask)).px 4 4 = true :=
  (dilate_same_kernel_inflationary singleDotMask 4 4 (by decide) (by decide)).2
    ((dilate_same_kernel_inflationary singleDotMask 4 4 (by decide) (by decide)).1
      (by decide))

/-- Size computation of `DustRemovalState.create_low_res_mask`
(dust_removal_state.py, lines 256-274): the scale is
`min(low_res_scale, max_drawing_resolution / max(width, height))` with
the constructor defaults `low_res_scale = 0.25` and
`max_drawing_resolution = 1024`, and each side is `int(side * scale)`
(Python truncation, which is floor on nonnegative values). -/
def lowResSize (w h : Nat) : Nat × Nat :=
  let maxDimension : ℚ := (max w h : Nat)
  let targetScale : ℚ := min (1 / 4) (1024 / maxDimension)
  ((⌊(w : ℚ) * targetScale⌋).toNat, (⌊(h : ℚ) * targetScale⌋).toNat)

/-- The slice of `DustRemovalState` that the mask-edit engine mutates:
the authoritative full-resolution mask, the low-resolution working copy,
the bounded undo history, the stroke-in-progress flag, and the last
point trackers cleared at stroke end. -/
structure EditState where
  dust_mask : Option Img
  low_res_mask : Option Img
  mask_history : List Img
  is_dragging : Bool
  last_brush_point : Option (ℚ × ℚ)
  last_eraser_point : Option (ℚ × ℚ)

/-- `DustRemovalState.save_mask_to_history` (lines 208-219): no-op
without a mask; otherwise append a copy of the full-resolution mask and,
if the history now exceeds `max_history_size = 20` entries, drop the
oldest (front) entry. -/
def saveMaskToHistory (s : EditState) : EditState :=
  match s.dust_mask with
  | none => s
  | some m =>
    let hist := s.mask_history ++ [m]
    { s with mask_history := if hist.length > 20 then hist.tail else hist }

/-- `DustRemovalState.start_brush_stroke` (lines 221-225): if no stroke
is in progress, push the current mask to the history and mark a stroke
active; otherwise do nothing. -/
def startBrushStroke (s : EditState) : EditState :=
  if s.is_dragging then s
  else { saveMaskToHistory s with is_dragging := true }

/-- `DustRemovalState.create_low_res_mask` (lines 256-274): derive the
low-resolution working mask from the full-resolution mask by
nearest-neighbor downscale to `lowResSize`; clears it when there is no
mask. -/
def createLowResMask (s : EditState) : EditState :=
  match s.dust_mask with
  | none => { s with low_res_mask := none }
  | some m =>
    let size := lowResSize m.w m.h
    { s with low_res_mask := some (resizeNearest m size.1 size.2) }

/-- `DustRemovalState.update_low_res_mask` (lines 282-291): replace the
low-resolution working mask and, when a full-resolution mask exists,
eagerly overwrite it with the nearest-neighbor upscale of the new
low-resolution mask (display feedback before the end-of-stroke sync). -/
def updateLowResMask (s : EditState) (newLowRes : Img) : EditState :=
  match s.dust_mask with
  | none => { s with low_res_mask := some newLowRes }
  | some m =>
    { s with low_res_mask := some newLowRes,
             dust_mask := some (resizeNearest newLowRes m.w m.h) }

/-- `DustRemovalState.undo_last_mask_change` (lines 237-247): no-op on an
empty history; otherwise pop the most recent snapshot (Python
`list.pop()` removes the last element), make it the full-resolution mask
and regenerate the low-resolution copy from it. -/
def undoLastMaskChange (s : EditState) : EditState :=
  match s.mask_history.getLast? with
  | none => s
  | some m =>
    createLowResMask
      { s with dust_mask := some m, mask_history := s.mask_history.dropLast }

/-- A brush/eraser stroke session between `start_brush_stroke` and undo:
each point or segment application computes some new low-resolution mask
from the current one (`BrushTools.apply_circular_brush` /
`interpolated_stroke`) and hands it to `update_low_res_mask`; the list
collects the successive low-resolution masks, covering every possible
sequence of brush and eraser applications. -/
def applyEdits (s : EditState) (edits : List Img) : EditState :=
  edits.foldl updateLowResMask s

/-- `update_low_res_mask` never touches the undo history. -/
theorem updateLowResMask_history (s : EditState) (e : Img) :
    (updateLowResMask s e).mask_history = s.mask_history := by
  cases h : s.dust_mask <;> simp [updateLowResMask, h]

/-- A whole stroke session never touches the undo history. -/
theorem applyEdits_history (edits : List Img) (s : EditState) :
    (applyEdits s edits).mask_history = s.mask_history := by
  induction edits generalizing s with
  | nil => rfl
  | cons e es ih =>
    show (applyEdits (updateLowResMask s e) es).mask_history = s.mask_history
    rw [ih, updateLowResMask_history]

/-- The history written by a push always ends with the pushed mask. -/
theorem saveMaskToHistory_getLast (s : EditState) (m : Img)
    (hd : s.dust_mask = some m) :
    (saveMaskToHistory s).mask_history.getLast? = some m := by
  simp only [saveMaskToHistory, hd]
  by_cases hlen : (s.mask_history ++ [m]).length > 20
  · rw [if_pos hlen]
    cases hh : s.mask_history with
    | nil => rw [hh] at hlen; simp at hlen
    | cons a as =>
      rw [List.cons_append, List.tail_cons]
      exact List.getLast?_concat as
  · rw [if_neg hlen]
    exact List.getLast?_concat _

/-- C2: stroke/undo round trip.  From any state with a full-resolution
mask and no stroke in progress, `start_brush_stroke`, then any sequence
of brush/eraser applications routed through `update_low_res_mask`, then
`undo_last_mask_change`, restores the full-resolution mask to its value
before the stroke began. -/
theorem stroke_undo_roundtrip (s : EditState) (m : Img) (edits : List Img)
    (hd : s.dust_mask = some m) (hdrag : s.is_dragging = false) :
    (undoLastMaskChange (applyEdits (startBrushStroke s) edits)).dust_mask
      = some m := by
  have hstart : (startBrushStroke s).mask_history =
      (saveMaskToHistory s).mask_history := by
    simp [startBrushStroke, hdrag]
  have hlast : (applyEdits (startBrushStroke s) edits).mask_history.getLast?
      = some m := by
    rw [applyEdits_history, hstart, saveMaskToHistory_getLast s m hd]
  simp only [undoLastMaskChange, hlast, createLowResMask]

/-- A concrete 2x2 all-on full-resolution mask for the C2/C3 witnesses. -/
def imgAllOn : Img := { w := 2, h := 2, px := fun _ _ => 255 }

/-- A concrete 1x1 low-resolution mask pushed during the witness stroke. -/
def imgEdit : Img := { w := 1, h := 1, px := fun _ _ => 0 }

/-- A concrete idle state holding `imgAllOn` as its mask. -/
def idleState : EditState :=
  { dust_mask := some imgAllOn, low_res_mask := none, mask_history := [],
    is_dragging := false, last_brush_point := none, last_eraser_point := none }

/-- Witness for C2: starting a stroke from `idleState`, applying one edit
and undoing restores the mask `imgAllOn`. -/
theorem stroke_undo_roundtrip_witness :
    (undoLastMaskChange (applyEdits (startBrushStroke idleState) [imgEdit])).dust_mask
      = some imgAllOn :=
  stroke_undo_roundtrip idleState imgAllOn [imgEdit] rfl rfl

/-- C3: the undo history is bounded by 20 snapshots — a push from a
history of at most 20 entries leaves at most 20 entries; a push from a
full history of exactly 20 entries evicts the oldest (front) entry and
appends the new snapshot at the back; and `start_brush_stroke` is the
identity while a stroke is already active, so a snapshot is pushed at
most once per stroke session. -/
theorem mask_history_bounded (s : EditState) (m : Img)
    (hd : s.dust_mask = some m) :
    (s.mask_history.length ≤ 20 →
      (saveMaskToHistory s).mask_history.length ≤ 20) ∧
    (s.mask_history.length = 20 →
      (saveMaskToHistory s).mask_history = s.mask_history.tail ++ [m]) ∧
    (∀ t : EditState, t.is_dragging = true → startBrushStroke t = t) := by
  refine ⟨?_, ?_, ?_⟩
  · intro hle
    simp only [saveMaskToHistory, hd]
    by_cases hlen : (s.mask_history ++ [m]).length > 20
    · rw [if_pos hlen]
      simp only [List.length_tail, List.length_append, List.length_singleton]
      omega
    · rw [if_neg hlen]
      simp only [List.length_append, List.length_singleton] at hlen ⊢
      omega
  · intro h20
    have hlen : (s.mask_history ++ [m]).length > 20 := by
      simp [List.length_append, h20]
    simp only [saveMaskToHistory, hd, if_pos hlen]
    cases hh : s.mask_history with
    | nil => rw [hh] at h20; simp at h20
    | cons a as => simp [hh]
  · intro t ht
    simp [startBrushStroke, ht]

/-- A concrete state whose history already holds 20 snapshots. -/
def fullHistoryState : EditState :=
  { dust_mask := some imgEdit, low_res_mask := none,
    mask_history := List.replicate 20 imgAllOn, is_dragging := false,
    last_brush_point := none, last_eraser_point := none }

/-- A concrete state with a stroke already in progress. -/
def draggingState : EditState :=
  { dust_mask := some imgAllOn, low_res_mask := none, mask_history := [],
    is_dragging := true, last_brush_point := none, last_eraser_point := none }

/-- Witness for C3 at concrete states: pushing onto a full 20-entry
history keeps 20 entries and evicts the front one, and starting a stroke
while dragging changes nothing. -/
theorem mask_history_bounded_witness :
    (saveMaskToHistory fullHistoryState).mask_history.length ≤ 20 ∧
    (saveMaskToHistory fullHistoryState).mask_history =
      (List.replicate 20 imgAllOn).tail ++ [imgEdit] ∧
    startBrushStroke draggingState = draggingState :=
  ⟨(mask_history_bounded fullHistoryState imgEdit rfl).1 (by simp [fullHistoryState]),
   (mask_history_bounded fullHistoryState imgEdit rfl).2.1 (by simp [fullHistoryState]),
   (mask_history_bounded fullHistoryState imgEdit rfl).2.2 draggingState rfl⟩

/-- Counterexample to C10: `create_low_res_mask` can collapse a side to
0.  A 1x1 mask (width and height both ≥ 1) gets scale min(0.25, 1024/1)
= 0.25 and size int(1 * 0.25) = 0 on both sides, and a 100000x4 mask
gets scale 1024/100000 and height int(4 * 0.01024) = 0. -/
theorem lowResSize_collapse_counterexample :
    (1 ≤ 1 ∧ (lowResSize 1 1).1 = 0) ∧ (lowResSize 100000 4).2 = 0 := by
  refine ⟨⟨le_refl 1, ?_⟩, ?_⟩ <;> · simp only [lowResSize]; norm_num

/-- C10 amended: the low-resolution size is positive for masks whose
sides are both at least 4 and whose aspect ratio is at most 1024 (so the
shorter side survives both the fixed 1/4 scale and the 1024-pixel cap);
without those bounds integer truncation can collapse a side to 0, as the
counterexample shows. -/
theorem lowResSize_positive (w h : Nat) (hw : 4 ≤ w) (hh : 4 ≤ h)
    (haspect : max w h ≤ 1024 * min w h) :
    1 ≤ (lowResSize w h).1 ∧ 1 ≤ (lowResSize w h).2 := by
  have key : ∀ s : Nat, 4 ≤ s → max w h ≤ 1024 * s →
      (1 : ℚ) ≤ (s : ℚ) * min (1 / 4) (1024 / ((max w h : Nat) : ℚ)) := by
    intro s hs hcap
    have hd : (0 : ℚ) < ((max w h : Nat) : ℚ) := by
      have : 0 < max w h := lt_of_lt_of_le (by norm_num) (le_trans hw (le_max_left w h))
      exact_mod_cast this
    rcases le_total ((1 : ℚ) / 4) (1024 / ((max w h : Nat) : ℚ)) with hc | hc
    · rw [min_eq_left hc]
      have : (4 : ℚ) ≤ (s : ℚ) := by exact_mod_cast hs
      linarith
    · rw [min_eq_right hc, ← mul_div_assoc, le_div_iff₀ hd, one_mul]
      have hcap' : ((max w h : Nat) : ℚ) ≤ 1024 * (s : ℚ) := by exact_mod_cast hcap
      linarith
  have main : ∀ s : Nat, 4 ≤ s → max w h ≤ 1024 * s →
      1 ≤ ((⌊(s : ℚ) * min (1 / 4) (1024 / ((max w h : Nat) : ℚ))⌋).toNat) := by
    intro s hs hcap
    have h1 : (1 : ℤ) ≤ ⌊(s : ℚ) * min (1 / 4) (1024 / ((max w h : Nat) : ℚ))⌋ := by
      rw [Int.le_floor]
      exact_mod_cast key s hs hcap
    exact (Int.le_toNat (le_trans zero_le_one h1)).mpr h1
  exact ⟨main w hw (le_trans haspect (by
      have := Nat.mul_le_mul_left 1024 (min_le_left w h); omega)),
    main h hh (le_trans haspect (by
      have := Nat.mul_le_mul_left 1024 (min_le_right w h); omega))⟩

/-- Witness for the amended C10: a 4x4 mask keeps both low-resolution
sides at least 1. -/
theorem lowResSize_positive_witness :
    1 ≤ (lowResSize 4 4).1 ∧ 1 ≤ (lowResSize 4 4).2 :=
  lowResSize_positive 4 4 (by norm_num) (by norm_num) (by norm_num)

/-- `LamaInpainter._fallback_inpaint` of
`src/src/image_processing.py` (lines 124-129): a single classical
`cv2.inpaint` TELEA pass at radius 5.  `cvInpaint` abstracts
`cv2.inpaint radius image mask`, whose internals live in OpenCV. -/
def fallbackInpaintService (cvInpaint : Nat → Img → Img → Img)
    (image mask : Img) : Img :=
  cvInpaint 5 image mask

/-- `LamaInpainter._fallback_inpaint` of `src/dust_removal_app.py`
(lines 141-158): three classical `cv2.inpaint` TELEA passes at radii 3,
7, 11, each applied to the previous pass's output (multi-pass). -/
def fallbackInpaintApp (cvInpaint : Nat → Img → Img → Img)
    (image mask : Img) : Img :=
  cvInpaint 11 (cvInpaint 7 (cvInpaint 3 image mask) mask) mask

/-- `LamaInpainter.inpaint` of `src/src/image_processing.py` (lines
107-122): if the deep model is unavailable, return the classical
fallback; otherwise run the deep model and, if it raises (modelled as
`Except.error`), catch the exception and return the classical fallback.
The result is always `Except.ok`: the caller never sees an error. -/
def lamaInpaintService (available : Bool)
    (deepModel : Img → Img → Except Unit Img)
    (cvInpaint : Nat → Img → Img → Img) (image mask : Img) :
    Except Unit Img :=
  if available then
    match deepModel image mask with
    | Except.ok r => Except.ok r
    | Except.error _ => Except.ok (fallbackInpaintService cvInpaint image mask)
  else Except.ok (fallbackInpaintService cvInpaint image mask)

/-- `LamaInpainter.inpaint` of `src/dust_removal_app.py` (lines
111-139): same control flow, but its classical fallback is the
multi-pass `fallbackInpaintApp`. -/
def lamaInpaintApp (available : Bool)
    (deepModel : Img → Img → Except Unit Img)
    (cvInpaint : Nat → Img → Img → Img) (image mask : Img) :
    Except Unit Img :=
  if available then
    match deepModel image mask with
    | Except.ok r => Except.ok r
    | Except.error _ => Except.ok (fallbackInpaintApp cvInpaint image mask)
  else Except.ok (fallbackInpaintApp cvInpaint image mask)

/-- A concrete stand-in for `cv2.inpaint` that records the radius it was
called with by adding it to every pixel. -/
def cvInpaintStub : Nat → Img → Img → Img :=
  fun radius image _ =>
    { w := image.w, h := image.h, px := fun y x => image.px y x + radius }

/-- Concrete all-zero 1x1 image for the C5 counterexample. -/
def imgZeroC5 : Img := { w := 1, h := 1, px := fun _ _ => 0 }

/-- Concrete all-on 1x1 mask for the C5 counterexample. -/
def maskFullC5 : Img := { w := 1, h := 1, px := fun _ _ => 255 }

/-- Counterexample to C5 as stated: the standalone app's
`LamaInpainter.inpaint` (dust_removal_app.py) does NOT fall back to the
classical single-pass strategy.  With the deep model unavailable it
returns the multi-pass fallback (three passes, radii 3+7+11 = 21 added
by the stub), which differs from the classical single-pass result
(radius 5) on the same input. -/
theorem lamaInpaintApp_not_single_pass_counterexample :
    lamaInpaintApp false (fun _ _ => Except.error ()) cvInpaintStub
        imgZeroC5 maskFullC5
      = Except.ok (fallbackInpaintApp cvInpaintStub imgZeroC5 maskFullC5) ∧
    (fallbackInpaintApp cvInpaintStub imgZeroC5 maskFullC5).px 0 0 = 21 ∧
    (fallbackInpaintService cvInpaintStub imgZeroC5 maskFullC5).px 0 0 = 5 := by
  exact ⟨rfl, rfl, rfl⟩

/-- C5 amended: deep-model inpainting never surfaces an error.  For any
deep model, classical primitive, image and mask, both `inpaint` wrappers
always return `Except.ok`; and whenever the deep model is unavailable or
raises, the returned image is exactly the classical fallback — a single
TELEA pass at radius 5 for `ImageProcessingService`'s wrapper, but three
TELEA passes at radii 3, 7, 11 (the classical multi-pass strategy, not
the single-pass one) for the standalone app's wrapper. -/
theorem lamaInpaint_fallback_transparent (available : Bool)
    (deepModel : Img → Img → Except Unit Img)
    (cvInpaint : Nat → Img → Img → Img) (image mask : Img)
    (hfail : available = false ∨ deepModel image mask = Except.error ()) :
    lamaInpaintService available deepModel cvInpaint image mask
      = Except.ok (fallbackInpaintService cvInpaint image mask) ∧
    lamaInpaintApp available deepModel cvInpaint image mask
      = Except.ok (fallbackInpaintApp cvInpaint image mask) ∧
    (∀ (av : Bool) (dm : Img → Img → Except Unit Img) (i m : Img),
      ∃ r : Img, lamaInpaintService av dm cvInpaint i m = Except.ok r) ∧
    (∀ (av : Bool) (dm : Img → Img → Except Unit Img) (i m : Img),
      ∃ r : Img, lamaInpaintApp av dm cvInpaint i m = Except.ok r) := by
  have hok : ∀ (av : Bool) (dm : Img → Img → Except Unit Img) (i m : Img),
      (∃ r : Img, lamaInpaintService av dm cvInpaint i m = Except.ok r) ∧
      (∃ r : Img, lamaInpaintApp av dm cvInpaint i m = Except.ok r) := by
    intro av dm i m
    cases av with
    | false => exact ⟨⟨_, rfl⟩, ⟨_, rfl⟩⟩
    | true =>
      cases hdm : dm i m with
      | ok r =>
        refine ⟨⟨r, ?_⟩, ⟨r, ?_⟩⟩ <;> simp [lamaInpaintService, lamaInpaintApp, hdm]
      | error e =>
        exact ⟨⟨fallbackInpaintService cvInpaint i m,
            by simp [lamaInpaintService, hdm]⟩,
          ⟨fallbackInpaintApp cvInpaint i m, by simp [lamaInpaintApp, hdm]⟩⟩
  refine ⟨?_, ?_, fun av dm i m => (hok av dm i m).1, fun av dm i m => (hok av dm i m).2⟩
  · rcases hfail with h | h
    · simp [lamaInpaintService, h]
    · cases available with
      | false => simp [lamaInpaintService]
      | true => simp [lamaInpaintService, h]
  · rcases hfail with h | h
    · simp [lamaInpaintApp, h]
    · cases available with
      | false => simp [lamaInpaintApp]
      | true => simp [lamaInpaintApp, h]

/-- Witness for the amended C5: with the deep model raising on every
input, the service wrapper returns the single-pass fallback as a
non-error result. -/
theorem lamaInpaint_fallback_transparent_witness :
    lamaInpaintService true (fun _ _ => Except.error ()) cvInpaintStub
        imgZeroC5 maskFullC5
      = Except.ok (fallbackInpaintService cvInpaintStub imgZeroC5 maskFullC5) :=
  (lamaInpaint_fallback_transparent true (fun _ _ => Except.error ())
    cvInpaintStub imgZeroC5 maskFullC5 (Or.inr rfl)).1

/-- The whole-image tensor fed to the network: pixel intensities
normalized to [0,1] by dividing by 255 inside the raster bounds, with the
out-of-range junk fixed to 0 (a finite numpy array has no out-of-range
entries; the guard makes the embedded patch well-defined as a function). -/
def wholeImageNorm (img : Img) : Nat → Nat → ℚ :=
  fun i j => if i < img.h ∧ j < img.w then (img.px i j : ℚ) / 255 else 0

/-- `ImageProcessingService.predict_dust_mask` (image_processing.py,
lines 170-217), the resize-once fast path: force-resize the grayscale
image to 1024x1024 (bilinear), normalize to [0,1], run the network once,
and bilinearly resize the prediction back to the original size.
`resizeBilinear` abstracts `PIL.Image.resize(..., BILINEAR)`,
`net` the U-Net forward pass, and `upscaleBilinear` the
`cv2.resize(..., INTER_LINEAR)` back to `(orig_w, orig_h)`; `threshold`,
`windowSize` and `stride` are accepted for interface compatibility and
never read. -/
def predictDustMask (resizeBilinear : Img → Nat → Nat → Img)
    (net : (Nat → Nat → ℚ) → Nat → Nat → ℚ)
    (upscaleBilinear : (Nat → Nat → ℚ) → Nat → Nat → Nat → Nat → ℚ)
    (image : Img) (threshold : ℚ) (windowSize stride : Nat) :
    Nat → Nat → ℚ :=
  upscaleBilinear (net (wholeImageNorm (resizeBilinear image 1024 1024)))
    image.w image.h

/-- C8: in the resize-once fast path, the returned probability map does
not depend on `window_size` or `stride` (nor on `threshold`): any two
calls that differ only in those arguments return equal maps, for every
image, network and resize primitive. -/
theorem predictDustMask_ignores_window_and_stride
    (resizeBilinear : Img → Nat → Nat → Img)
    (net : (Nat → Nat → ℚ) → Nat → Nat → ℚ)
    (upscaleBilinear : (Nat → Nat → ℚ) → Nat → Nat → Nat → Nat → ℚ)
    (image : Img) (t1 t2 : ℚ) (ws1 st1 ws2 st2 : Nat) :
    predictDustMask resizeBilinear net upscaleBilinear image t1 ws1 st1
      = predictDustMask resizeBilinear net upscaleBilinear image t2 ws2 st2 :=
  rfl

/-- Index mapping of `np.pad(..., mode='reflect')` for one axis: indices
inside the source are unchanged, indices past the edge are reflected
about the last sample (valid for pad widths up to `n - 1`, which covers
the pad `(patch_size - len % stride) % stride < patch_size` used here
whenever it is nonzero only for images at least one patch wide). -/
def reflectIdx (n i : Nat) : Nat :=
  if i < n then i else 2 * n - 2 - i

/-- Padding amount of `DustRemovalApp.detect_dust` (dust_removal_app.py,
lines 437-440) for one axis:
`(patch_size - len % stride) % stride if len % stride != 0 else 0`. -/
def padAmount (len patch stride : Nat) : Nat :=
  if len % stride ≠ 0 then (patch - len % stride) % stride else 0

/-- The window origins of the patch loop
`range(0, padded_len - patch_size + 1, stride)`. -/
def tileStarts (total patch stride : Nat) : List Nat :=
  if patch ≤ total then (List.range ((total - patch) / stride + 1)).map (· * stride)
  else []

/-- The normalized patch tensor `padded[y0:y0+p, x0:x0+p] / 255.0` handed
to the network, as a function with out-of-window entries fixed to 0. -/
def extractPatchNorm (padded : Nat → Nat → Nat) (y0 x0 patch : Nat) :
    Nat → Nat → ℚ :=
  fun i j => if i < patch ∧ j < patch then (padded (y0 + i) (x0 + j) : ℚ) / 255
    else 0

/-- The accumulator `prediction_map` after the patch loop: for every
window origin whose window covers the pixel, the network's prediction for
that window contributes at the pixel's in-window coordinates. -/
def predictionMapPx (net : (Nat → Nat → ℚ) → Nat → Nat → ℚ)
    (padded : Nat → Nat → Nat) (pH pW patch stride y x : Nat) : ℚ :=
  ((tileStarts pH patch stride).map (fun y0 =>
    ((tileStarts pW patch stride).map (fun x0 =>
      if y0 ≤ y ∧ y < y0 + patch ∧ x0 ≤ x ∧ x < x0 + patch then
        net (extractPatchNorm padded y0 x0 patch) (y - y0) (x - x0)
      else 0)).sum)).sum

/-- The `count_map` buffer after the patch loop: the number of windows
covering the pixel. -/
def countMapPx (pH pW patch stride y x : Nat) : ℚ :=
  ((tileStarts pH patch stride).map (fun y0 =>
    ((tileStarts pW patch stride).map (fun x0 =>
      if y0 ≤ y ∧ y < y0 + patch ∧ x0 ≤ x ∧ x < x0 + patch then (1 : ℚ)
      else 0)).sum)).sum

/-- `DustRemovalApp.detect_dust` (dust_removal_app.py, lines 433-474),
the probability map before thresholding, at pixel (y, x) of the
`[:H, :W]` crop: reflect-pad the image, slide `patch x patch` windows
with step `stride` accumulating predictions and counts, then divide by
`np.maximum(count_map, 1e-8)`. -/
def detectDustPx (net : (Nat → Nat → ℚ) → Nat → Nat → ℚ) (img : Img)
    (patch stride y x : Nat) : ℚ :=
  let pH := img.h + padAmount img.h patch stride
  let pW := img.w + padAmount img.w patch stride
  let padded := fun i j => img.px (reflectIdx img.h i) (reflectIdx img.w j)
  predictionMapPx net padded pH pW patch stride y x /
    max (countMapPx pH pW patch stride y x) (1 / 100000000)

/-- C7: degenerate tiling equals direct invocation.  For a square N x N
image run with `patch_size = stride = N`, no padding is added, the single
window covers every pixel exactly once, the count buffer is 1 everywhere,
and the tiled probability map equals the network applied once to the
whole normalized image. -/
theorem detectDust_degenerate_tiling_eq_direct
    (net : (Nat → Nat → ℚ) → Nat → Nat → ℚ) (img : Img) (N y x : Nat)
    (hN : 0 < N) (hw : img.w = N) (hh : img.h = N) (hy : y < N) (hx : x < N) :
    detectDustPx net img N N y x = net (wholeImageNorm img) y x := by
  have hpad : padAmount N N N = 0 := by
    simp [padAmount, Nat.mod_self]
  have hstarts : tileStarts N N N = [0] := by
    have h1 : List.range 1 = [0] := rfl
    simp [tileStarts, Nat.sub_self, Nat.zero_div, h1]
  have hpatch : extractPatchNorm
      (fun i j => img.px (reflectIdx N i) (reflectIdx N j)) 0 0 N
      = wholeImageNorm img := by
    funext i j
    simp only [extractPatchNorm, wholeImageNorm, Nat.zero_add, hw, hh]
    by_cases hij : i < N ∧ j < N
    · rw [if_pos hij, if_pos hij, reflectIdx, if_pos hij.1, reflectIdx,
        if_pos hij.2]
    · rw [if_neg hij, if_neg hij]
  have hcount : countMapPx N N N N y x = 1 := by
    simp [countMapPx, hstarts, hy, hx]
  have hmax : max (1 : ℚ) (1 / 100000000) = 1 := by norm_num
  simp only [detectDustPx, hw, hh, hpad, Nat.add_zero]
  rw [hcount, hmax]
  simp [predictionMapPx, hstarts, hy, hx, hpatch]

/-- A concrete network stand-in (the identity on the input tensor) for
the C7 witness. -/
def netIdC7 : (Nat → Nat → ℚ) → Nat → Nat → ℚ := fun f y x => f y x

/-- A concrete 2x2 grayscale image for the C7 witness. -/
def imgC7 : Img := { w := 2, h := 2, px := fun y x => 100 * y + x }

/-- Witness for C7: on a concrete 2x2 image with patch = stride = 2, the
tiled map at pixel (1, 0) equals the direct whole-image invocation. -/
theorem detectDust_degenerate_tiling_witness :
    detectDustPx netIdC7 imgC7 2 2 1 0 = netIdC7 (wholeImageNorm imgC7) 1 0 :=
  detectDust_degenerate_tiling_eq_direct netIdC7 imgC7 2 1 0
    (by norm_num) rfl rfl (by norm_num) (by norm_num)

/-- The clamped zoom of a wheel step
(`SpotlessFilmModern.on_mouse_wheel`, spotless_film_modern.py, lines
1136-1141): `new_zoom = max(1.0, min(5.0, old_zoom * factor))` with
`factor = 1.10` or `1/1.10` depending on scroll direction. -/
def wheelNewZoom (oldZoom factor : ℚ) : ℚ :=
  max 1 (min 5 (oldZoom * factor))

/-- The pan-offset x-coordinate recomputed by the cursor-anchored wheel
zoom (lines 1145-1163): the vector from the panned image center to the
cursor is scaled by `new_zoom / max(1e-6, old_zoom)` and the offset is
re-derived so the cursor-target stays stationary.  The y-coordinate uses
the same formula with (canvasH, offY, cursorY). -/
def wheelNewOffset (canvasW offX cursorX oldZoom newZoom : ℚ) : ℚ :=
  cursorX - (cursorX - (canvasW / 2 + offX)) *
    (newZoom / max (1 / 1000000) oldZoom) - canvasW / 2

/-- The idealized, exact-arithmetic inverse of the single-view placement
transform: an image drawn with width `fittedW * zoom` centered at
`canvasW / 2 + offX` puts canvas point `cursorX` over image pixel
`(cursorX - left) * imgW / dispW`.  This is the continuous transform the
wheel's pan recomputation inverts; it deliberately omits the `int()`
truncations, integer floor divisions and `max(1, .)` that
`display_single_view` (spotless_film_modern.py, lines 788-820) applies
when rasterizing.  The faithful truncated mapping the program actually
reads is `imagePointUnderDisplay` below; the C9 counterexample shows the
on-screen mapping moves the cursor's image point by more than 1 px, so
only this idealized transform is exactly cursor-anchored.  The
y-coordinate uses the same formula with (canvasH, offY, fittedH, imgH,
cursorY). -/
def imagePointUnder (canvasW offX fittedW imgW zoom cursorX : ℚ) : ℚ :=
  (cursorX - (canvasW / 2 + offX - fittedW * zoom / 2)) * imgW /
    (fittedW * zoom)

/-- C9 amended: the wheel's pan-offset recomputation exactly inverts the
idealized placement transform.  For any canvas, pan offset, fitted image
size, cursor position and zoom factor, with the zoom inside its clamped
range `[1, 5]` (so the `max(1e-6, old_zoom)` guard is inert), the
idealized image-pixel coordinate under the cursor after the wheel step
equals the one under it before the step exactly.  The original claim's
≤ 1 px bound fails for the rendered mapping the program reads, which
truncates the display width, center and offset to integers: the
counterexample below shows the on-screen image point under the cursor
moving by more than 4 image pixels in a single wheel step.  The same
equality instantiated with the y-axis arguments covers the vertical
coordinate. -/
theorem wheelZoom_cursor_anchored (canvasW offX fittedW imgW cursorX
    oldZoom factor : ℚ) (hz : 1 ≤ oldZoom) (hf : 0 < fittedW) :
    imagePointUnder canvasW
        (wheelNewOffset canvasW offX cursorX oldZoom
          (wheelNewZoom oldZoom factor))
        fittedW imgW (wheelNewZoom oldZoom factor) cursorX
      = imagePointUnder canvasW offX fittedW imgW oldZoom cursorX := by
  have hmaxz : max ((1 : ℚ) / 1000000) oldZoom = oldZoom :=
    max_eq_right (le_trans (by norm_num) hz)
  have hz2 : (1 : ℚ) ≤ wheelNewZoom oldZoom factor := le_max_left 1 _
  have hz2ne : wheelNewZoom oldZoom factor ≠ 0 := by
    intro h; rw [h] at hz2; norm_num at hz2
  have hzne : oldZoom ≠ 0 := by
    intro h; rw [h] at hz; norm_num at hz
  have hfne : fittedW ≠ 0 := ne_of_gt hf
  unfold imagePointUnder wheelNewOffset
  rw [hmaxz]
  field_simp
  ring

/-- Witness for C9 at concrete values: an 800-wide canvas, pan offset 10,
fitted width 400, a 2000-pixel-wide image, cursor at x = 500, zoom 2
scaled by the wheel factor 11/10 — the image point under the cursor is
unchanged by the step. -/
theorem wheelZoom_cursor_anchored_witness :
    imagePointUnder 800
        (wheelNewOffset 800 10 500 2 (wheelNewZoom 2 (11 / 10)))
        400 2000 (wheelNewZoom 2 (11 / 10)) 500
      = imagePointUnder 800 10 400 2000 2 500 :=
  wheelZoom_cursor_anchored 800 10 400 2000 500 2 (11 / 10)
    (by norm_num) (by norm_num)

/-- Python `int()` applied to a float: truncation toward zero (floor for
nonnegative values, ceiling for negative ones, as for `int(off_x)` with a
negative pan offset). -/
def pyInt (q : ℚ) : Int := if 0 ≤ q then ⌊q⌋ else ⌈q⌉

/-- The rendered display width of `display_single_view`
(spotless_film_modern.py, lines 788-790):
`zoom = max(1.0, zoom_scale)` then `disp_w = max(1, int(fitted_w * zoom))`. -/
def dispWidth (fittedW : Int) (zoom : ℚ) : Int :=
  max 1 (pyInt ((fittedW : ℚ) * max 1 zoom))

/-- The left edge of the rendered image rectangle stored in
`image_item_bounds` (lines 797-820): `center_x - disp_w // 2` with
`center_x = canvas_width // 2 + int(off_x)` (Python floor divisions and
`int()` truncation). -/
def displayLeft (canvasW : Int) (offX : ℚ) (fittedW : Int) (zoom : ℚ) : Int :=
  Int.fdiv canvasW 2 + pyInt offX - Int.fdiv (dispWidth fittedW zoom) 2

/-- The image-pixel x-coordinate the program reads under a canvas
x-coordinate: `convert_to_low_res_coordinates` (lines 2017-2028) computes
`img_x = (canvas_x - left) / disp_w * orig_w` from the truncated
`image_item_bounds` written by `display_single_view`. -/
def imagePointUnderDisplay (canvasW : Int) (offX : ℚ) (fittedW imgW : Int)
    (zoom : ℚ) (cursorX : Int) : ℚ :=
  ((cursorX : ℚ) - (displayLeft canvasW offX fittedW zoom : ℚ)) * (imgW : ℚ) /
    ((dispWidth fittedW zoom : ℚ))

/-- Counterexample to C9 as stated: through the display truncations the
image point under the cursor is NOT preserved within 1 px.  On an 801 px
canvas with fitted width 761 (canvas minus the 40 px margin), a 4000 px
wide image, zero pan offset and the cursor at x = 600 — inside the
rendered rectangle both before ([20, 781]) and after ([-37, 800]) — one
wheel step from zoom 1 (factor 1.10, clamped zoom changes to 1.10) moves
the image pixel under the cursor from 2320000/761 (~3048.6) to
2548000/837 (~3044.2), a shift of 2812000/636957 (~4.41) image pixels. -/
theorem wheelZoom_display_truncation_counterexample :
    wheelNewZoom 1 (11 / 10) ≠ 1 ∧
    displayLeft 801 0 761 1 ≤ 600 ∧
    600 ≤ displayLeft 801 0 761 1 + dispWidth 761 1 ∧
    displayLeft 801 (wheelNewOffset 801 0 600 1 (wheelNewZoom 1 (11 / 10)))
        761 (wheelNewZoom 1 (11 / 10)) ≤ 600 ∧
    600 ≤ displayLeft 801 (wheelNewOffset 801 0 600 1 (wheelNewZoom 1 (11 / 10)))
        761 (wheelNewZoom 1 (11 / 10))
      + dispWidth 761 (wheelNewZoom 1 (11 / 10)) ∧
    1 < imagePointUnderDisplay 801 0 761 4000 1 600
      - imagePointUnderDisplay 801
          (wheelNewOffset 801 0 600 1 (wheelNewZoom 1 (11 / 10)))
          761 4000 (wheelNewZoom 1 (11 / 10)) 600 := by
  have h1 : wheelNewZoom 1 (11 / 10) = 11 / 10 := by
    norm_num [wheelNewZoom, min_def, max_def]
  have h2 : wheelNewOffset 801 0 600 1 (11 / 10) = -399 / 20 := by
    unfold wheelNewOffset
    rw [max_eq_right (by norm_num : (1 : ℚ) / 1000000 ≤ 1)]
    norm_num
  have hp0 : pyInt 0 = 0 := by
    unfold pyInt
    rw [if_pos (by norm_num)]
    norm_num
  have hpOff : pyInt (-399 / 20) = -19 := by
    unfold pyInt
    rw [if_neg (by norm_num), Int.ceil_eq_iff]
    norm_num
  have h3 : dispWidth 761 1 = 761 := by
    norm_num [dispWidth, pyInt, max_def]
  have h4 : dispWidth 761 (11 / 10) = 837 := by
    norm_num [dispWidth, pyInt, max_def]
  have h5 : displayLeft 801 0 761 1 = 20 := by
    unfold displayLeft
    rw [h3, hp0]
    decide
  have h6 : displayLeft 801 (-399 / 20) 761 (11 / 10) = -37 := by
    unfold displayLeft
    rw [h4, hpOff]
    decide
  rw [h1, h2]
  refine ⟨by norm_num, ?_, ?_, ?_, ?_, ?_⟩
  · rw [h5]; norm_num
  · rw [h5, h3]; norm_num
  · rw [h6]; norm_num
  · rw [h6, h4]; norm_num
  · unfold imagePointUnderDisplay
    rw [h5, h6, h3, h4]
    norm_num
